import Mathlib

/-
  Verification of the cache-aside layer (cache-service.js) of the
  pethospital repository: a shallow embedding of the CacheService class
  (get / set / delete / deletePattern / getOrSet, the in-memory fallback
  map, the Redis connection flag, the lazy TTL cleanup and the pattern
  matcher), together with proofs and refutations of the specified
  properties.

  Modelling conventions:
  - Date.now() is an explicit `now : Nat` parameter (milliseconds).
  - The Redis client is a collaborator over the network; each call into it
    may raise.  Every operation therefore takes one Boolean per Redis call
    site saying whether that call raises on this invocation.
  - JSON.stringify always yields a nonempty (hence truthy) string on the
    values the service stores, and JSON.parse (JSON.stringify v) is
    deep-equal to v for every serializable v; the embedding of the Redis
    store therefore keeps the parsed denotation of the serialized payload.
  - The try/catch blocks of the source are embedded explicitly: each
    operation has a Raw variant returning Except (the body of the try
    block, where an error carries the state at the moment of the throw,
    since mutations already performed are not rolled back), and the public
    operation recovers exactly as the catch block does.
-/

namespace CacheService

mutual
/-- JavaScript values as stored and returned by the cache layer. -/
inductive JSVal where
  | undef
  | null
  | bool (b : Bool)
  | num (n : Int)
  | str (s : String)
  | arr (elems : JSList)
  | obj (fields : JSFields)
deriving DecidableEq
/-- A list of JavaScript values (elements of a JS array). -/
inductive JSList where
  | nil
  | cons (hd : JSVal) (tl : JSList)
deriving DecidableEq
/-- The fields of a JavaScript object, in insertion order. -/
inductive JSFields where
  | nil
  | cons (key : String) (val : JSVal) (tl : JSFields)
deriving DecidableEq
end

mutual
/-- Values that JSON round-trips identically: no undefined anywhere.
    For such v, JSON.parse (JSON.stringify v) is deep-equal to v. -/
inductive Serializable : JSVal → Prop where
  | null : Serializable .null
  | bool (b : Bool) : Serializable (.bool b)
  | num (n : Int) : Serializable (.num n)
  | str (s : String) : Serializable (.str s)
  | arr (elems : JSList) : SerializableList elems → Serializable (.arr elems)
  | obj (fields : JSFields) : SerializableFields fields → Serializable (.obj fields)
/-- All elements of the list are serializable. -/
inductive SerializableList : JSList → Prop where
  | nil : SerializableList .nil
  | cons (hd : JSVal) (tl : JSList) : Serializable hd → SerializableList tl →
      SerializableList (.cons hd tl)
/-- All field values are serializable. -/
inductive SerializableFields : JSFields → Prop where
  | nil : SerializableFields .nil
  | cons (key : String) (val : JSVal) (tl : JSFields) : Serializable val →
      SerializableFields tl → SerializableFields (.cons key val tl)
end

/-- An entry of the in-memory fallback Map: cache-service.js line 100,
    this.inMemoryCache.set(key, \x7b data, expiry \x7d). -/
structure MemEntry where
  data : JSVal
  expiry : Nat
deriving DecidableEq

/-- An entry of the primary (Redis) store: the parsed denotation of the
    serialized payload written by setEx, plus the absolute expiry implied
    by the TTL handed to setEx. -/
structure REntry where
  val : JSVal
  expiry : Nat
deriving DecidableEq

/-- The mutable state of the CacheService instance plus the contents of
    the primary backend it talks to: the connection flag isRedisConnected,
    the primary (Redis) key space, and the in-memory fallback Map. -/
structure CacheState where
  connected : Bool
  redis : List (String × REntry)
  mem : List (String × MemEntry)
deriving DecidableEq

/-- Map.get / Map.has: first (unique) binding of the key. -/
def lookupA {α : Type} (m : List (String × α)) (k : String) : Option α :=
  (m.find? (fun e => e.1 == k)).map (fun e => e.2)

/-- Map.delete: remove the binding of the key. -/
def eraseA {α : Type} (m : List (String × α)) (k : String) : List (String × α) :=
  m.filter (fun e => e.1 != k)

/-- Map.set: bind the key, replacing any previous binding. -/
def setA {α : Type} (m : List (String × α)) (k : String) (v : α) : List (String × α) :=
  (k, v) :: eraseA m k

/-- The value the primary returns for redisClient.get(key): the entry's
    payload if the key exists and its TTL has not elapsed. -/
def redisLookup (r : List (String × REntry)) (now : Nat) (k : String) : Option JSVal :=
  match lookupA r k with
  | some e => if now < e.expiry then some e.val else none
  | none => none

/-- Errors that can be raised inside the operations: a raised Redis-client
    call, or the RegExp constructor throwing on an invalid pattern. -/
inductive CacheErr where
  | redis
  | badPattern
deriving DecidableEq

/-- The initial state: cache-service.js constructor starts with an empty
    in-memory Map and isRedisConnected = false. -/
def initState : CacheState := ⟨false, [], []⟩

/-- Split a pattern at each occurrence of the wildcard, keeping the
    literal segments: the segments of the regex
    pattern.replace(/\x2a/g, ".*"). -/
def splitStar : List Char → List (List Char)
  | [] => [[]]
  | c :: t =>
    if c = '*' then [] :: splitStar t
    else
      match splitStar t with
      | [] => [[c]]
      | p :: ps => (c :: p) :: ps

/-- Scan s for the leftmost occurrence of the literal p and return the
    remainder after it; none when p does not occur in s. -/
def dropAfterFirst (p : List Char) : List Char → Option (List Char)
  | [] => if p.isEmpty then some [] else none
  | c :: t =>
    if p.isPrefixOf (c :: t) then some ((c :: t).drop p.length)
    else dropAfterFirst p t

/-- Unanchored test of the regex "p0.\x2ap1.\x2a...pn" built from the literal
    segments: the segments occur in s, in order, as disjoint substrings.
    This is what RegExp.test does with the translated pattern, since the
    regex carries no anchors. -/
def inOrderMatch : List (List Char) → List Char → Bool
  | [], _ => true
  | p :: ps, s =>
    match dropAfterFirst p s with
    | some rest => inOrderMatch ps rest
    | none => false

/-- CacheService.matchPattern (cache-service.js lines 194-197):
    new RegExp(pattern.replace(/\x2a/g, ".\x2a")).test(key).  The constructed
    regex is unanchored, so the test succeeds whenever the pattern's
    literal segments occur in the key in order, anywhere inside it.
    Modelled for patterns whose characters other than the wildcard are
    regex-literal (as all cache-key patterns of this repository are). -/
def matchPattern (key pattern : String) : Bool :=
  inOrderMatch (splitStar pattern.data) key.data

/-- Anchored-at-both-ends tail: s matches ".\x2a p1 .\x2a ... pn $" for the
    literal segments given. -/
def matchTailAnchored : List (List Char) → List Char → Bool
  | [], _ => true
  | [p], s => p.isSuffixOf s
  | p :: ps, s =>
    match dropAfterFirst p s with
    | some rest => matchTailAnchored ps rest
    | none => false

/-- Full anchored glob match: the key decomposes as p0, gap, p1, gap, ...,
    gap, pn over its whole extent. -/
def matchAnchoredParts : List (List Char) → List Char → Bool
  | [], s => s.isEmpty
  | [p], s => p == s
  | p :: ps, s => p.isPrefixOf s && matchTailAnchored ps (s.drop p.length)

/-- The glob semantics the primary backend applies server-side to
    redisClient.keys(pattern): a full (anchored) match of the key against
    the pattern, with the wildcard spanning any sequence. -/
def globFullMatch (key pattern : String) : Bool :=
  matchAnchoredParts (splitStar pattern.data) key.data

/-- Modelled from the spec: the spec describes matchPattern as translating
    each wildcard into a match-any-sequence regex "anchored over the full
    key", so that a key matches only when the entire key matches the
    pattern.  This definition follows those words; it is compared against
    the source's matchPattern above. -/
def matchPatternAnchoredSpec (key pattern : String) : Bool :=
  matchAnchoredParts (splitStar pattern.data) key.data

/-- The keys redisClient.keys(pattern) returns: live (unexpired) keys of
    the primary store whose whole name matches the glob. -/
def redisKeysMatching (r : List (String × REntry)) (now : Nat) (pattern : String) :
    List String :=
  (r.filter (fun e => decide (now < e.2.expiry) && globFullMatch e.1 pattern)).map
    (fun e => e.1)

/-- redisClient.del(keys): remove every listed key from the primary. -/
def eraseKeys (r : List (String × REntry)) (ks : List String) : List (String × REntry) :=
  r.filter (fun e => !(ks.contains e.1))

/-- The fallback read of get (cache-service.js lines 69-78): an unexpired
    in-memory entry is returned; an expired one is deleted and the read
    falls through to the cache-miss return null. -/
def memRead (st : CacheState) (now : Nat) (key : String) : JSVal × CacheState :=
  match lookupA st.mem key with
  | some cached =>
    if now < cached.expiry then (cached.data, st)
    else (JSVal.null, { st with mem := eraseA st.mem key })
  | none => (JSVal.null, st)

/-- The try-block of CacheService.get (lines 60-81): while connected, read
    the primary (which may raise, rfail); a truthy reply is parsed and
    returned; otherwise — including a primary miss while connected — the
    code falls through to the in-memory fallback Map. -/
def getRaw (st : CacheState) (now : Nat) (rfail : Bool) (key : String) :
    Except (CacheErr × CacheState) (JSVal × CacheState) :=
  if st.connected then
    if rfail then .error (.redis, st)
    else
      match redisLookup st.redis now key with
      | some v => .ok (v, st)
      | none => .ok (memRead st now key)
  else .ok (memRead st now key)

/-- CacheService.get (lines 59-86): the catch block maps any raised error
    to the cache-miss result null. -/
def get (st : CacheState) (now : Nat) (rfail : Bool) (key : String) :
    JSVal × CacheState :=
  match getRaw st now rfail key with
  | .ok r => r
  | .error (_, s) => (JSVal.null, s)

/-- cleanupInMemoryCache (lines 182-189): drop every in-memory entry whose
    expiry is at or before now. -/
def cleanupInMemoryCache (st : CacheState) (now : Nat) : CacheState :=
  { st with mem := st.mem.filter (fun e => decide (now < e.2.expiry)) }

/-- The try-block of CacheService.set (lines 92-105): while connected,
    serialize and setEx on the primary (the call may raise; a payload that
    serializes to undefined also makes the client call raise); while
    disconnected, bind the key in the fallback Map with absolute expiry
    now + ttl*1000 and then sweep expired entries. -/
def setRaw (st : CacheState) (now : Nat) (rfail : Bool) (key : String)
    (data : JSVal) (ttlSeconds : Nat) : Except (CacheErr × CacheState) CacheState :=
  if st.connected then
    if rfail || data == JSVal.undef then .error (.redis, st)
    else .ok { st with redis := setA st.redis key ⟨data, now + ttlSeconds * 1000⟩ }
  else
    .ok (cleanupInMemoryCache
      { st with mem := setA st.mem key ⟨data, now + ttlSeconds * 1000⟩ } now)

/-- CacheService.set (lines 91-110): write errors are swallowed. -/
def set (st : CacheState) (now : Nat) (rfail : Bool) (key : String)
    (data : JSVal) (ttlSeconds : Nat) : CacheState :=
  match setRaw st now rfail key data ttlSeconds with
  | .ok s => s
  | .error (_, s) => s

/-- The try-block of CacheService.delete (lines 116-121): while connected,
    del on the primary first (may raise — in which case the following
    fallback-Map delete is skipped), then delete from the fallback Map. -/
def deleteRaw (st : CacheState) (rfail : Bool) (key : String) :
    Except (CacheErr × CacheState) CacheState :=
  if st.connected then
    if rfail then .error (.redis, st)
    else .ok { st with redis := eraseA st.redis key, mem := eraseA st.mem key }
  else .ok { st with mem := eraseA st.mem key }

/-- CacheService.delete (lines 115-125): delete errors are swallowed. -/
def delete (st : CacheState) (rfail : Bool) (key : String) : CacheState :=
  match deleteRaw st rfail key with
  | .ok s => s
  | .error (_, s) => s

/-- The in-memory phase of deletePattern (lines 143-147): iterate the
    fallback Map's keys and delete the ones matchPattern accepts.  When
    the pattern is syntactically invalid (pinv), the RegExp constructor
    inside matchPattern throws on the first iteration, so the Map is left
    unchanged; with an empty Map the loop body never runs and nothing is
    thrown. -/
def memPhaseRaw (st : CacheState) (pinv : Bool) (pattern : String) :
    Except (CacheErr × CacheState) CacheState :=
  if pinv then
    if st.mem.isEmpty then .ok st else .error (.badPattern, st)
  else .ok { st with mem := st.mem.filter (fun e => !(matchPattern e.1 pattern)) }

/-- The try-block of CacheService.deletePattern (lines 131-147): while
    connected, list matching keys on the primary (may raise: failKeys) and
    batch-delete them when there are any (may raise: failDel); in either
    raise the in-memory phase is skipped.  Then scan the fallback Map. -/
def deletePatternRaw (st : CacheState) (now : Nat) (failKeys failDel pinv : Bool)
    (pattern : String) : Except (CacheErr × CacheState) CacheState :=
  if st.connected then
    if failKeys then .error (.redis, st)
    else
      let ks := redisKeysMatching st.redis now pattern
      if ks.isEmpty then memPhaseRaw st pinv pattern
      else if failDel then .error (.redis, st)
      else memPhaseRaw { st with redis := eraseKeys st.redis ks } pinv pattern
  else memPhaseRaw st pinv pattern

/-- CacheService.deletePattern (lines 130-149): every error raised inside
    the try block — Redis errors and the invalid-pattern RegExp error
    alike — is caught, logged and swallowed. -/
def deletePattern (st : CacheState) (now : Nat) (failKeys failDel pinv : Bool)
    (pattern : String) : CacheState :=
  match deletePatternRaw st now failKeys failDel pinv pattern with
  | .ok s => s
  | .error (_, s) => s

/-- The outcome of one invocation of the producer (fetchFunction) handed
    to getOrSet: a value, or a raised error identified by a code. -/
inductive PResult where
  | val (v : JSVal)
  | err (e : Nat)
deriving DecidableEq

/-- CacheService.getOrSet (lines 154-177).  The producer is a function of
    the invocation index (0 = the call in the try block, 1 = the call in
    the catch block).  Returns the result — Except.error e when the
    producer's raised error e propagates to the caller — paired with the
    number of producer invocations performed.  A cache hit is any get
    result other than null; a produced value is cached only when it is
    neither null nor undefined; a producer raise is caught and answered by
    calling the producer once more, whose value is returned uncached and
    whose error, if raised again, propagates. -/
def getOrSet (st : CacheState) (now : Nat) (rget rset : Bool) (key : String)
    (producer : Nat → PResult) (ttlSeconds : Nat) :
    Except Nat (JSVal × CacheState) × Nat :=
  let r := get st now rget key
  if r.1 = JSVal.null then
    match producer 0 with
    | .val v =>
      if v = JSVal.null ∨ v = JSVal.undef then (.ok (v, r.2), 1)
      else (.ok (v, set r.2 now rset key v ttlSeconds), 1)
    | .err _ =>
      match producer 1 with
      | .val v => (.ok (v, r.2), 2)
      | .err e2 => (.error e2, 2)
  else (.ok r, 0)

/-- States reachable from the freshly constructed service by the five
    public operations and the connect / error notifications of the Redis
    client. -/
inductive Reachable : CacheState → Prop where
  | init : Reachable initState
  | connect {st : CacheState} : Reachable st → Reachable { st with connected := true }
  | disconnect {st : CacheState} : Reachable st →
      Reachable { st with connected := false }
  | opGet {st : CacheState} (now : Nat) (rfail : Bool) (key : String) :
      Reachable st → Reachable (get st now rfail key).2
  | opSet {st : CacheState} (now : Nat) (rfail : Bool) (key : String) (v : JSVal)
      (ttl : Nat) : Reachable st → Reachable (set st now rfail key v ttl)
  | opDelete {st : CacheState} (rfail : Bool) (key : String) :
      Reachable st → Reachable (delete st rfail key)
  | opDeletePattern {st : CacheState} (now : Nat) (f1 f2 pinv : Bool)
      (pattern : String) : Reachable st →
      Reachable (deletePattern st now f1 f2 pinv pattern)
  | opGetOrSet {st s : CacheState} (now : Nat) (rg rs : Bool) (key : String)
      (producer : Nat → PResult) (ttl : Nat) (v : JSVal) : Reachable st →
      (getOrSet st now rg rs key producer ttl).1 = .ok (v, s) → Reachable s

/-- State after set("k", "w", 1) on the fresh (disconnected) service at
    time 0: the fallback map holds "k" with expiry 1000. -/
def s1c : CacheState := set initState 0 false "k" (.str "w") 1

/-- State after the Redis client then emits its connect notification. -/
def s2c : CacheState := { s1c with connected := true }

/-- State after a further set("k", "v", 10) at time 0 while connected: the
    primary holds "k" (expiry 10000) while the fallback map still holds
    its old entry (expiry 1000). -/
def s3c : CacheState := set s2c 0 false "k" (.str "v") 10

/-- State reached by set("k", "w", 5) at time 0 on the fresh service
    followed by the connect notification: connected, primary empty,
    fallback map holding "k" until 5000. -/
def t2c : CacheState := { set initState 0 false "k" (.str "w") 5 with connected := true }

/-- A fallback-map entry used by the concrete pattern-deletion states. -/
def e1000 : MemEntry := ⟨.str "1", 1000⟩

/-- A primary-store entry used by the concrete pattern-deletion states. -/
def r1000 : REntry := ⟨.str "1", 1000⟩

/-- Disconnected state holding the four example keys in the fallback map. -/
def stD7 : CacheState :=
  ⟨false, [], [("hospitals:list:a", e1000), ("hospitals:list:b", e1000),
    ("hospital:a", e1000), ("search:x", e1000)]⟩

/-- Connected state holding the four example keys in the primary store. -/
def stC7 : CacheState :=
  ⟨true, [("hospitals:list:a", r1000), ("hospitals:list:b", r1000),
    ("hospital:a", r1000), ("search:x", r1000)], []⟩

/-- Disconnected state whose fallback map holds one live entry under "k". -/
def stW2 : CacheState := ⟨false, [], [("k", ⟨.str "w", 500⟩)]⟩

/-- Disconnected state whose fallback map holds one entry under "a". -/
def stM1 : CacheState := ⟨false, [], [("a", e1000)]⟩

/-- Connected state with one live primary entry and one live fallback
    entry, under different keys. -/
def stCW : CacheState := ⟨true, [("k", ⟨.str "a", 5000⟩)], [("m", ⟨.str "b", 5000⟩)]⟩

/-- Disconnected state whose fallback map holds a key that merely contains
    the literal part of the example pattern as an inner substring. -/
def stX7 : CacheState := ⟨false, [], [("xhospitals:list:a", e1000)]⟩

/-- Inversion helper: a serializable value is not undefined. -/
theorem serializable_ne_undef {v : JSVal} (h : Serializable v) : v ≠ JSVal.undef := by
  intro hv
  rw [hv] at h
  cases h

/-- Lookup finds the binding at the head of the association list. -/
theorem lookupA_cons_self {α : Type} (l : List (String × α)) (k : String) (e : α) :
    lookupA ((k, e) :: l) k = some e := by
  unfold lookupA
  rw [List.find?_cons_of_pos _ (by simp)]
  rfl

/-- Lookup after Map.set finds the value just bound. -/
theorem lookupA_setA {α : Type} (m : List (String × α)) (k : String) (v : α) :
    lookupA (setA m k v) k = some v := by
  unfold setA
  exact lookupA_cons_self _ _ _

/-- Core round-trip fact of both backends: a get(key) at any time before
    the entry written by set(key, v, ttl) expires returns v and leaves the
    state untouched, in either connection state. -/
theorem get_after_set (st : CacheState) (now now2 : Nat) (key : String) (v : JSVal)
    (ttl : Nat) (hu : v ≠ JSVal.undef) (ht : 0 < ttl)
    (hb : now2 < now + ttl * 1000) :
    get (set st now false key v ttl) now2 false key
      = (v, set st now false key v ttl) := by
  have hv : (v == JSVal.undef) = false := by
    simp [beq_eq_false_iff_ne, hu]
  have hlt : now < now + ttl * 1000 := by omega
  cases hc : st.connected
  · have hset : set st now false key v ttl =
        { st with
          mem := ((setA st.mem key ⟨v, now + ttl * 1000⟩).filter
            (fun e => decide (now < e.2.expiry))) } := by
      simp [set, setRaw, hc, cleanupInMemoryCache]
    have hmem : (setA st.mem key ⟨v, now + ttl * 1000⟩).filter
          (fun e => decide (now < e.2.expiry))
        = (key, (⟨v, now + ttl * 1000⟩ : MemEntry)) :: ((eraseA st.mem key).filter
            (fun e => decide (now < e.2.expiry))) := by
      simp [setA, List.filter_cons, hlt]
    rw [hset]
    simp [get, getRaw, hc, memRead, hmem, lookupA_cons_self, hb]
  · have hset : set st now false key v ttl =
        { st with redis := setA st.redis key ⟨v, now + ttl * 1000⟩ } := by
      simp [set, setRaw, hc, hv]
    rw [hset]
    simp [get, getRaw, hc, redisLookup, lookupA_setA, hb]

/-- C1 (confirmed): for every key k, serializable value v and ttl > 0, a
    get(k) issued immediately after set(k, v, ttl) returns a value
    deep-equal to v (and leaves the state unchanged), in the CONNECTED
    state — via the primary store — as well as in the DISCONNECTED state —
    via the in-process fallback map. -/
theorem set_get_roundtrip (st : CacheState) (now : Nat) (key : String) (v : JSVal)
    (ttl : Nat) (hs : Serializable v) (ht : 0 < ttl) :
    get (set st now false key v ttl) now false key
      = (v, set st now false key v ttl) :=
  get_after_set st now now key v ttl (serializable_ne_undef hs) ht (by omega)

/-- Witness for C1 at a concrete input. -/
theorem set_get_roundtrip_witness :
    Serializable (JSVal.str "v") ∧ 0 < 60 ∧
    get (set initState 0 false "k" (.str "v") 60) 0 false "k"
      = (.str "v", set initState 0 false "k" (.str "v") 60) :=
  ⟨Serializable.str "v", by decide,
    set_get_roundtrip initState 0 "k" (.str "v") 60 (Serializable.str "v") (by decide)⟩

/-- C2 (corrected), counterexample to the claim as stated: in the
    reachable state s3c the fallback-map entry of "k" is expired at time
    2000, yet get("k") — connected, with the primary holding "k" — neither
    returns absent nor removes the expired fallback entry: it returns the
    primary's value and leaves the fallback map untouched. -/
theorem expired_entry_shadowed_ce :
    Reachable s3c
    ∧ lookupA s3c.mem "k" = some ⟨.str "w", 1000⟩
    ∧ (1000 : Nat) ≤ 2000
    ∧ ¬((get s3c 2000 false "k").1 = JSVal.null
        ∧ lookupA (get s3c 2000 false "k").2.mem "k" = none) := by
  refine ⟨?_, by decide, by decide, by decide⟩
  exact Reachable.opSet 0 false "k" (.str "v") 10
    (Reachable.connect (Reachable.opSet 0 false "k" (.str "w") 1 Reachable.init))

/-- C2 (corrected), amended: an expired fallback entry is purged — with
    get returning absent — by every get that reaches the fallback map:
    always while disconnected, and while connected when the primary
    reports a miss without raising; on such a disconnected miss a
    getOrSet invokes the producer (again).  Moreover no get ever returns
    a fallback entry whose expiry is in the past: a non-null result is
    either the primary's live value or an unexpired fallback entry. -/
theorem get_expired_purge_amended (st : CacheState) (now : Nat) (rfail rs : Bool)
    (key : String) (e : MemEntry) (prod : Nat → PResult) (ttl : Nat) (v : JSVal) :
    (lookupA st.mem key = some e → e.expiry ≤ now → st.connected = false →
      get st now rfail key = (JSVal.null, { st with mem := eraseA st.mem key }))
    ∧ (lookupA st.mem key = some e → e.expiry ≤ now → st.connected = true →
      redisLookup st.redis now key = none →
      get st now false key = (JSVal.null, { st with mem := eraseA st.mem key }))
    ∧ (lookupA st.mem key = some e → e.expiry ≤ now → st.connected = false →
      prod 0 = PResult.val v → (getOrSet st now rfail rs key prod ttl).2 = 1)
    ∧ ((get st now rfail key).1 ≠ JSVal.null →
      (st.connected = true ∧ rfail = false ∧
        redisLookup st.redis now key = some (get st now rfail key).1)
      ∨ (∃ e2, lookupA st.mem key = some e2 ∧ now < e2.expiry ∧
        (get st now rfail key).1 = e2.data)) := by
  have hA : lookupA st.mem key = some e → e.expiry ≤ now → st.connected = false →
      get st now rfail key = (JSVal.null, { st with mem := eraseA st.mem key }) := by
    intro hm hx hc
    have hnlt : ¬ now < e.expiry := by omega
    simp [get, getRaw, hc, memRead, hm, hnlt]
  have hB : lookupA st.mem key = some e → e.expiry ≤ now → st.connected = true →
      redisLookup st.redis now key = none →
      get st now false key = (JSVal.null, { st with mem := eraseA st.mem key }) := by
    intro hm hx hc hr
    have hnlt : ¬ now < e.expiry := by omega
    simp [get, getRaw, hc, hr, memRead, hm, hnlt]
  refine ⟨hA, hB, ?_, ?_⟩
  · intro hm hx hc hp
    have h1 := hA hm hx hc
    by_cases hvv : v = JSVal.null ∨ v = JSVal.undef
    · simp [getOrSet, h1, hp, hvv]
    · simp [getOrSet, h1, hp, hvv]
  · intro hne
    cases hc : st.connected
    · rcases hm2 : lookupA st.mem key with _ | e2
      · simp [get, getRaw, hc, memRead, hm2] at hne
      · by_cases hlt : now < e2.expiry
        · exact Or.inr ⟨e2, rfl, hlt, by simp [get, getRaw, hc, memRead, hm2, hlt]⟩
        · simp [get, getRaw, hc, memRead, hm2, hlt] at hne
    · cases hrf : rfail
      · rcases hr : redisLookup st.redis now key with _ | w
        · rcases hm2 : lookupA st.mem key with _ | e2
          · simp [get, getRaw, hc, hrf, hr, memRead, hm2] at hne
          · by_cases hlt : now < e2.expiry
            · exact Or.inr ⟨e2, rfl, hlt, by simp [get, getRaw, hc, hr, memRead, hm2, hlt]⟩
            · simp [get, getRaw, hc, hrf, hr, memRead, hm2, hlt] at hne
        · exact Or.inl ⟨rfl, rfl, by simp [get, getRaw, hc, hr]⟩
      · simp [get, getRaw, hc, hrf] at hne

/-- Witness for the amended C2 at a concrete input: a disconnected state
    whose entry for "k" expired at 500, read at time 1000. -/
theorem get_expired_purge_amended_witness :
    get stW2 1000 false "k" = (JSVal.null, { stW2 with mem := eraseA stW2.mem "k" })
    ∧ (getOrSet stW2 1000 false false "k" (fun _ => .val (.str "f")) 60).2 = 1 := by
  have h := get_expired_purge_amended stW2 1000 false false "k" ⟨.str "w", 500⟩
    (fun _ => .val (.str "f")) 60 (.str "f")
  exact ⟨h.1 (by decide) (by decide) (by decide),
    h.2.2.1 (by decide) (by decide) (by decide) (by decide)⟩

/-- C3 (corrected), counterexample to the claim as stated: in the
    reachable state t2c the service is CONNECTED and the primary has no
    value for "k", yet get("k") returns the value stored in the fallback
    map; and in the reachable state s3c both backends simultaneously hold
    a value for the key "k". -/
theorem connected_get_returns_fallback_ce :
    Reachable t2c
    ∧ t2c.connected = true
    ∧ redisLookup t2c.redis 1 "k" = none
    ∧ lookupA t2c.mem "k" = some ⟨.str "w", 5000⟩
    ∧ (get t2c 1 false "k").1 = JSVal.str "w"
    ∧ Reachable s3c
    ∧ lookupA s3c.redis "k" = some ⟨.str "v", 10000⟩
    ∧ lookupA s3c.mem "k" = some ⟨.str "w", 1000⟩ := by
  refine ⟨?_, by decide, by decide, by decide, by decide, ?_, by decide, by decide⟩
  · exact Reachable.connect (Reachable.opSet 0 false "k" (.str "w") 5 Reachable.init)
  · exact Reachable.opSet 0 false "k" (.str "v") 10
      (Reachable.connect (Reachable.opSet 0 false "k" (.str "w") 1 Reachable.init))

/-- C3 (corrected), amended: while CONNECTED, get first consults the
    primary; on a raised primary error it returns absent without touching
    the fallback map; on a primary hit it returns the primary's value; but
    on a primary miss it falls through to the fallback map and may return
    an in-memory value.  (Both backends can simultaneously hold a value
    for the same key, as the counterexample shows.) -/
theorem connected_get_fallback_amended (st : CacheState) (now : Nat) (key : String)
    (v : JSVal) :
    (st.connected = true → get st now true key = (JSVal.null, st))
    ∧ (st.connected = true → redisLookup st.redis now key = some v →
      get st now false key = (v, st))
    ∧ (st.connected = true → redisLookup st.redis now key = none →
      get st now false key = memRead st now key) := by
  refine ⟨?_, ?_, ?_⟩
  · intro hc
    simp [get, getRaw, hc]
  · intro hc hr
    simp [get, getRaw, hc, hr]
  · intro hc hr
    simp [get, getRaw, hc, hr]

/-- Witness for the amended C3 at a concrete connected state. -/
theorem connected_get_fallback_amended_witness :
    get stCW 0 true "k" = (JSVal.null, stCW)
    ∧ get stCW 0 false "k" = (.str "a", stCW)
    ∧ get stCW 0 false "m" = memRead stCW 0 "m" := by
  have h1 := connected_get_fallback_amended stCW 0 "k" (.str "a")
  have h2 := connected_get_fallback_amended stCW 0 "m" (.str "a")
  exact ⟨h1.1 (by decide), h1.2.1 (by decide) (by decide),
    h2.2.2 (by decide) (by decide)⟩

/-- C4 (confirmed): with the primary raising on every call, get maps the
    error to an absent result, set / delete / deletePattern swallow it
    leaving the state unchanged, and getOrSet still returns the producer's
    value without error; a syntactically invalid pattern is likewise
    swallowed by deletePattern.  No operation propagates a cache-internal
    error to its caller. -/
theorem ops_swallow_primary_errors (st : CacheState) (now : Nat) (key : String)
    (v : JSVal) (ttl : Nat) (pattern : String) (f1 f2 pinv : Bool)
    (prod : Nat → PResult) :
    (st.connected = true → get st now true key = (JSVal.null, st))
    ∧ (st.connected = true → set st now true key v ttl = st)
    ∧ (st.connected = true → delete st true key = st)
    ∧ (st.connected = true → deletePattern st now true f2 pinv pattern = st)
    ∧ (st.connected = true → ∀ w, prod 0 = PResult.val w →
      getOrSet st now true true key prod ttl = (.ok (w, st), 1))
    ∧ (st.connected = false → deletePattern st now f1 f2 true pattern = st) := by
  refine ⟨?_, ?_, ?_, ?_, ?_, ?_⟩
  · intro hc
    simp [get, getRaw, hc]
  · intro hc
    simp [set, setRaw, hc]
  · intro hc
    simp [delete, deleteRaw, hc]
  · intro hc
    simp [deletePattern, deletePatternRaw, hc]
  · intro hc w hw
    have hg : get st now true key = (JSVal.null, st) := by simp [get, getRaw, hc]
    by_cases hvv : w = JSVal.null ∨ w = JSVal.undef
    · simp [getOrSet, hg, hw, hvv]
    · simp [getOrSet, hg, hw, hvv, set, setRaw, hc]
  · intro hc
    cases hm : st.mem.isEmpty <;>
      simp [deletePattern, deletePatternRaw, memPhaseRaw, hc, hm]

/-- Witness for C4 at concrete states (connected with a live entry in
    each backend; disconnected with a nonempty fallback map). -/
theorem ops_swallow_primary_errors_witness :
    get stCW 0 true "k" = (JSVal.null, stCW)
    ∧ set stCW 0 true "k" (.str "z") 60 = stCW
    ∧ delete stCW true "k" = stCW
    ∧ deletePattern stCW 0 true false false "hospital:*" = stCW
    ∧ getOrSet stCW 0 true true "q" (fun _ => .val (.str "f")) 60
      = (.ok (.str "f", stCW), 1)
    ∧ deletePattern stM1 0 false false true "[" = stM1 := by
  have h1 := ops_swallow_primary_errors stCW 0 "k" (.str "z") 60 "hospital:*"
    false false false (fun _ => PResult.val (.str "f"))
  have h2 := ops_swallow_primary_errors stCW 0 "q" (.str "z") 60 "hospital:*"
    false false false (fun _ => PResult.val (.str "f"))
  have h3 := ops_swallow_primary_errors stM1 0 "k" (.str "z") 60 "[" false false
    false (fun _ => PResult.val (.str "f"))
  exact ⟨h1.1 (by decide), h1.2.1 (by decide), h1.2.2.1 (by decide),
    h1.2.2.2.1 (by decide), h2.2.2.2.2.1 (by decide) (.str "f") rfl,
    h3.2.2.2.2.2 (by decide)⟩

/-- The fallback read never changes the connection flag. -/
theorem memRead_snd_connected (st : CacheState) (now : Nat) (key : String) :
    (memRead st now key).2.connected = st.connected := by
  unfold memRead
  rcases h : lookupA st.mem key with _ | e
  · simp
  · by_cases hlt : now < e.expiry <;> simp [hlt]

/-- get never changes the connection flag. -/
theorem get_snd_connected (st : CacheState) (now : Nat) (rf : Bool) (key : String) :
    (get st now rf key).2.connected = st.connected := by
  unfold get getRaw
  cases hc : st.connected
  · simpa [hc] using memRead_snd_connected st now key
  · cases rf
    · rcases hr : redisLookup st.redis now key with _ | w
      · simpa [hr, hc] using memRead_snd_connected st now key
      · simp [hr, hc]
    · simp [hc]

/-- C5 (confirmed): on a cache miss, getOrSet invokes the producer exactly
    once; a produced value that is neither null nor undefined is stored
    under the key with the requested TTL (in the primary while connected,
    in the fallback map while disconnected) and returned; a second
    getOrSet issued before the entry expires returns the cached value with
    zero invocations of its own producer. -/
theorem getOrSet_miss_caches (st : CacheState) (now now2 : Nat) (key : String)
    (prod prod2 : Nat → PResult) (ttl : Nat) (v : JSVal)
    (hmiss : (get st now false key).1 = JSVal.null)
    (hp : prod 0 = PResult.val v) (hv1 : v ≠ JSVal.null) (hv2 : v ≠ JSVal.undef)
    (ht : 0 < ttl) (hb : now2 < now + ttl * 1000) :
    getOrSet st now false false key prod ttl
      = (.ok (v, set (get st now false key).2 now false key v ttl), 1)
    ∧ (st.connected = true →
      lookupA (set (get st now false key).2 now false key v ttl).redis key
        = some ⟨v, now + ttl * 1000⟩)
    ∧ (st.connected = false →
      lookupA (set (get st now false key).2 now false key v ttl).mem key
        = some ⟨v, now + ttl * 1000⟩)
    ∧ getOrSet (set (get st now false key).2 now false key v ttl) now2 false false
        key prod2 ttl
      = (.ok (v, set (get st now false key).2 now false key v ttl), 0) := by
  have hvb : (v == JSVal.undef) = false := by simp [beq_eq_false_iff_ne, hv2]
  have hlt : now < now + ttl * 1000 := by omega
  refine ⟨?_, ?_, ?_, ?_⟩
  · simp [getOrSet, hmiss, hp, hv1, hv2]
  · intro hc
    have hc1 : (get st now false key).2.connected = true := by
      rw [get_snd_connected]; exact hc
    simp [set, setRaw, hc1, hvb, lookupA_setA]
  · intro hc
    have hc1 : (get st now false key).2.connected = false := by
      rw [get_snd_connected]; exact hc
    simp [set, setRaw, hc1, cleanupInMemoryCache, setA, List.filter_cons, hlt,
      lookupA_cons_self]
  · have hg2 := get_after_set (get st now false key).2 now now2 key v ttl hv2 ht hb
    simp [getOrSet, hg2, hv1]

/-- Witness for C5 at a concrete input: a fresh disconnected cache. -/
theorem getOrSet_miss_caches_witness :
    getOrSet initState 0 false false "k" (fun _ => .val (.str "v")) 60
      = (.ok (.str "v", set (get initState 0 false "k").2 0 false "k" (.str "v") 60), 1)
    ∧ getOrSet (set (get initState 0 false "k").2 0 false "k" (.str "v") 60) 1000
        false false "k" (fun _ => .val (.str "x")) 60
      = (.ok (.str "v", set (get initState 0 false "k").2 0 false "k" (.str "v") 60), 0) := by
  have h := getOrSet_miss_caches initState 0 1000 "k" (fun _ => .val (.str "v"))
    (fun _ => .val (.str "x")) 60 (.str "v") (by decide) rfl (by decide) (by decide)
    (by decide) (by decide)
  exact ⟨h.1, h.2.2.2⟩

/-- C6 (confirmed): when the key is absent and the producer raises on
    every invocation, getOrSet propagates the producer's error (the one
    raised by the invocation made in the catch block) to its caller. -/
theorem getOrSet_producer_error_propagates (st : CacheState) (now : Nat)
    (rg rs : Bool) (key : String) (prod : Nat → PResult) (ttl : Nat) (e1 e2 : Nat)
    (hmiss : (get st now rg key).1 = JSVal.null)
    (h0 : prod 0 = PResult.err e1) (h1 : prod 1 = PResult.err e2) :
    getOrSet st now rg rs key prod ttl = (.error e2, 2) := by
  simp [getOrSet, hmiss, h0, h1]

/-- Witness for C6 at a concrete input. -/
theorem getOrSet_producer_error_propagates_witness :
    getOrSet initState 0 false false "k" (fun i => .err (i + 5)) 60
      = (.error 6, 2) :=
  getOrSet_producer_error_propagates initState 0 false false "k"
    (fun i => .err (i + 5)) 60 5 6 (by decide) rfl rfl

/-- C10 (confirmed): when the key is absent and the producer's first
    invocation raises, getOrSet swallows that error and invokes the
    producer a second time; a value obtained then is returned without
    being stored (the state stays exactly as get left it), and an error
    raised then propagates. -/
theorem getOrSet_producer_retry (st : CacheState) (now : Nat) (rg rs : Bool)
    (key : String) (prod : Nat → PResult) (ttl : Nat) (e : Nat) (v : JSVal)
    (e2 : Nat) (hmiss : (get st now rg key).1 = JSVal.null)
    (h0 : prod 0 = PResult.err e) :
    (prod 1 = PResult.val v →
      getOrSet st now rg rs key prod ttl = (.ok (v, (get st now rg key).2), 2))
    ∧ (prod 1 = PResult.err e2 →
      getOrSet st now rg rs key prod ttl = (.error e2, 2)) := by
  constructor <;> intro h1 <;> simp [getOrSet, hmiss, h0, h1]

/-- Witness for C10 at a concrete input. -/
theorem getOrSet_producer_retry_witness :
    getOrSet initState 0 false false "k"
      (fun i => if i = 0 then .err 7 else .val (.str "w")) 60
      = (.ok (.str "w", (get initState 0 false "k").2), 2) :=
  (getOrSet_producer_retry initState 0 false false "k"
    (fun i => if i = 0 then .err 7 else .val (.str "w")) 60 7 (.str "w") 0
    (by decide) rfl).1 rfl

/-- Map.delete is idempotent on the association-list model. -/
theorem eraseA_idem {α : Type} (m : List (String × α)) (k : String) :
    eraseA (eraseA m k) k = eraseA m k := by
  simp [eraseA, List.filter_filter]

/-- C8 (corrected), counterexample to the claim as stated: in the
    reachable connected state s2c whose fallback map holds "k", a delete
    whose primary del call raises leaves the fallback entry in place (the
    catch block runs before the fallback-map deletion is reached). -/
theorem delete_skips_fallback_on_error_ce :
    Reachable s2c
    ∧ s2c.connected = true
    ∧ delete s2c true "k" = s2c
    ∧ lookupA (delete s2c true "k").mem "k" = some ⟨.str "w", 1000⟩ := by
  refine ⟨?_, by decide, by decide, by decide⟩
  exact Reachable.connect (Reachable.opSet 0 false "k" (.str "w") 1 Reachable.init)

/-- C8 (corrected), amended: delete removes the key from the fallback map
    while disconnected, and while connected provided the primary delete
    does not raise (in which case the primary entry is removed too); when
    the primary delete raises, the error is swallowed but the fallback
    deletion is skipped and the state is unchanged.  delete is idempotent
    in every case. -/
theorem delete_fallback_amended (st : CacheState) (rfail : Bool) (key : String) :
    (st.connected = false → delete st rfail key = { st with mem := eraseA st.mem key })
    ∧ (st.connected = true →
      delete st false key
        = { st with redis := eraseA st.redis key, mem := eraseA st.mem key })
    ∧ (st.connected = true → delete st true key = st)
    ∧ delete (delete st rfail key) rfail key = delete st rfail key := by
  refine ⟨?_, ?_, ?_, ?_⟩
  · intro hc
    simp [delete, deleteRaw, hc]
  · intro hc
    simp [delete, deleteRaw, hc]
  · intro hc
    simp [delete, deleteRaw, hc]
  · cases hc : st.connected
    · simp [delete, deleteRaw, hc, eraseA_idem]
    · cases rfail
      · simp [delete, deleteRaw, hc, eraseA_idem]
      · simp [delete, deleteRaw, hc]

/-- Witness for the amended C8 at concrete states. -/
theorem delete_fallback_amended_witness :
    delete stM1 false "a" = { stM1 with mem := eraseA stM1.mem "a" }
    ∧ delete stCW false "k"
      = { stCW with redis := eraseA stCW.redis "k", mem := eraseA stCW.mem "k" }
    ∧ delete stCW true "k" = stCW :=
  ⟨(delete_fallback_amended stM1 false "a").1 (by decide),
    (delete_fallback_amended stCW false "k").2.1 (by decide),
    (delete_fallback_amended stCW true "k").2.2.1 (by decide)⟩

/-- C9 (corrected), counterexample to the claim as stated: with a
    syntactically invalid pattern (such as "[", whose regex translation
    makes the RegExp constructor throw) and a nonempty fallback map, the
    error is raised inside the try block of deletePattern and swallowed by
    its catch block: deletePattern returns normally instead of propagating
    the error to its caller. -/
theorem deletePattern_bad_pattern_swallowed_ce :
    deletePatternRaw stM1 0 false false true "[" = .error (.badPattern, stM1)
    ∧ deletePattern stM1 0 false false true "[" = stM1 :=
  ⟨rfl, by decide⟩

/-- C9 (corrected), amended: an invalid pattern makes the RegExp
    construction inside matchPattern throw during the in-memory scan
    (whenever the fallback map is nonempty), but deletePattern's
    surrounding try/catch swallows the error: the fallback map is left
    unchanged, primary deletions already performed persist, and no error
    reaches the caller. -/
theorem deletePattern_swallows_bad_pattern_amended (st : CacheState) (now : Nat)
    (f1 f2 : Bool) (pattern : String) :
    (deletePattern st now f1 f2 true pattern).mem = st.mem
    ∧ (st.connected = false → deletePattern st now f1 f2 true pattern = st)
    ∧ (st.connected = false → st.mem ≠ [] →
      deletePatternRaw st now f1 f2 true pattern = .error (.badPattern, st)) := by
  refine ⟨?_, ?_, ?_⟩
  · cases hc : st.connected
    · cases hm : st.mem.isEmpty <;>
        simp [deletePattern, deletePatternRaw, memPhaseRaw, hc, hm]
    · cases f1
      · cases hks : (redisKeysMatching st.redis now pattern).isEmpty
        · cases f2
          · cases hm : st.mem.isEmpty <;>
              simp [deletePattern, deletePatternRaw, memPhaseRaw, hc, hks, hm]
          · simp [deletePattern, deletePatternRaw, hc, hks]
        · cases hm : st.mem.isEmpty <;>
            simp [deletePattern, deletePatternRaw, memPhaseRaw, hc, hks, hm]
      · simp [deletePattern, deletePatternRaw, hc]
  · intro hc
    cases hm : st.mem.isEmpty <;>
      simp [deletePattern, deletePatternRaw, memPhaseRaw, hc, hm]
  · intro hc hm
    have hm2 : st.mem.isEmpty = false := by simp [List.isEmpty_eq_false, hm]
    simp [deletePatternRaw, memPhaseRaw, hc, hm2]

/-- Witness for the amended C9 at a concrete input. -/
theorem deletePattern_swallows_bad_pattern_amended_witness :
    deletePattern stM1 0 false false true "[" = stM1
    ∧ deletePatternRaw stM1 0 false false true "[" = .error (.badPattern, stM1) :=
  ⟨(deletePattern_swallows_bad_pattern_amended stM1 0 false false "[").2.1 (by decide),
    (deletePattern_swallows_bad_pattern_amended stM1 0 false false "[").2.2
      (by decide) (by decide)⟩

/-- A successful leftmost scan decomposes the scanned list around the
    found occurrence. -/
theorem dropAfterFirst_eq_some {p : List Char} :
    ∀ {s r : List Char}, dropAfterFirst p s = some r → ∃ a, s = a ++ p ++ r := by
  intro s
  induction s with
  | nil =>
    intro r h
    simp only [dropAfterFirst] at h
    by_cases hp : p.isEmpty
    · rw [if_pos hp] at h
      have hpn : p = [] := List.isEmpty_iff.mp hp
      have hrn : ([] : List Char) = r := by injection h
      exact ⟨[], by simp [hpn, ← hrn]⟩
    · rw [if_neg hp] at h
      cases h
  | cons c t ih =>
    intro r h
    simp only [dropAfterFirst] at h
    by_cases hp : p.isPrefixOf (c :: t)
    · rw [if_pos hp] at h
      obtain ⟨u, hu⟩ := List.isPrefixOf_iff_prefix.mp hp
      have hr : r = u := by
        have h2 : (c :: t).drop p.length = r := by injection h
        rw [← hu, List.drop_left] at h2
        exact h2.symm
      exact ⟨[], by simp [← hu, hr]⟩
    · rw [if_neg hp] at h
      obtain ⟨a, ha⟩ := ih h
      exact ⟨c :: a, by simp [ha]⟩

/-- The leftmost scan succeeds on any list containing an occurrence of p,
    and its remainder extends the part after that occurrence. -/
theorem occ_dropAfterFirst (p : List Char) :
    ∀ (a b : List Char), ∃ r, dropAfterFirst p (a ++ p ++ b) = some r ∧ b <:+ r := by
  intro a
  induction a with
  | nil =>
    intro b
    refine ⟨b, ?_, List.suffix_refl b⟩
    simp only [List.nil_append]
    cases hpb : p ++ b with
    | nil =>
      obtain ⟨hp, hb⟩ := List.append_eq_nil.mp hpb
      simp [dropAfterFirst, hp, hb]
    | cons c t =>
      have hpre : p.isPrefixOf (c :: t) := by
        rw [← hpb]
        exact List.isPrefixOf_iff_prefix.mpr (List.prefix_append p b)
      simp only [dropAfterFirst, if_pos hpre]
      rw [← hpb, List.drop_left]
  | cons c a' ih =>
    intro b
    simp only [List.cons_append]
    by_cases hpre : p.isPrefixOf (c :: (a' ++ p ++ b))
    · refine ⟨(c :: (a' ++ p ++ b)).drop p.length, ?_, ?_⟩
      · simp only [dropAfterFirst, if_pos hpre]
      · have hb : ((c :: (a' ++ p ++ b)).drop p.length).drop (a'.length + 1) = b := by
          rw [List.drop_drop]
          have hform : c :: (a' ++ p ++ b) = (c :: a' ++ p) ++ b := by simp
          have hlen : (c :: a' ++ p).length = p.length + (a'.length + 1) := by
            simp [List.length_append]
            omega
          rw [hform, ← hlen, List.drop_left]
        have hsuf := List.drop_suffix (a'.length + 1)
          ((c :: (a' ++ p ++ b)).drop p.length)
        rw [hb] at hsuf
        exact hsuf
    · obtain ⟨r, hdr, hbr⟩ := ih b
      refine ⟨r, ?_, hbr⟩
      simp only [dropAfterFirst, if_neg hpre]
      exact hdr

/-- The unanchored in-order test is monotone under extending the scanned
    list to the left. -/
theorem inOrderMatch_suffix_mono :
    ∀ (ps : List (List Char)) (s1 s2 : List Char), s1 <:+ s2 →
      inOrderMatch ps s1 = true → inOrderMatch ps s2 = true := by
  intro ps
  induction ps with
  | nil =>
    intro s1 s2 _ _
    rfl
  | cons p ps' ih =>
    intro s1 s2 hs h1
    rcases hd1 : dropAfterFirst p s1 with _ | r1
    · simp [inOrderMatch, hd1] at h1
    · simp only [inOrderMatch, hd1] at h1
      obtain ⟨a, ha⟩ := dropAfterFirst_eq_some hd1
      obtain ⟨c, hc⟩ := hs
      have hs2 : s2 = (c ++ a) ++ p ++ r1 := by
        rw [← hc, ha]
        simp
      obtain ⟨r2, hd2, hr⟩ := occ_dropAfterFirst p (c ++ a) r1
      rw [← hs2] at hd2
      simp only [inOrderMatch, hd2]
      exact ih r1 r2 hr h1

/-- An anchored tail match implies the unanchored in-order test. -/
theorem matchTail_imp_inOrder :
    ∀ (ps : List (List Char)) (s : List Char), matchTailAnchored ps s = true →
      inOrderMatch ps s = true := by
  intro ps
  induction ps with
  | nil =>
    intro s _
    rfl
  | cons p ps' ih =>
    intro s h
    cases ps' with
    | nil =>
      simp only [matchTailAnchored] at h
      obtain ⟨a, ha⟩ := List.isSuffixOf_iff_suffix.mp h
      have hform : s = a ++ p ++ [] := by simp [← ha]
      obtain ⟨r, hd, _⟩ := occ_dropAfterFirst p a []
      rw [← hform] at hd
      simp only [inOrderMatch, hd]
    | cons q ps'' =>
      simp only [matchTailAnchored] at h
      rcases hd : dropAfterFirst p s with _ | rest
      · rw [hd] at h
        cases h
      · rw [hd] at h
        simp only [inOrderMatch, hd]
        exact ih rest h

/-- An anchored full match implies the unanchored in-order test: every key
    the spec's anchored matcher accepts, the source's matcher accepts. -/
theorem matchAnchored_imp_inOrder :
    ∀ (parts : List (List Char)) (s : List Char),
      matchAnchoredParts parts s = true → inOrderMatch parts s = true := by
  intro parts s h
  cases parts with
  | nil => rfl
  | cons p ps =>
    cases ps with
    | nil =>
      simp only [matchAnchoredParts] at h
      have hps : p = s := by
        have := beq_iff_eq.mp h
        exact this
      subst hps
      obtain ⟨r, hd, _⟩ := occ_dropAfterFirst p [] []
      have hd2 : dropAfterFirst p p = some r := by simpa using hd
      simp only [inOrderMatch, hd2]
    | cons q ps' =>
      simp only [matchAnchoredParts, Bool.and_eq_true] at h
      obtain ⟨hpre, htail⟩ := h
      obtain ⟨u, hu⟩ := List.isPrefixOf_iff_prefix.mp hpre
      have hdropu : s.drop p.length = u := by rw [← hu, List.drop_left]
      rw [hdropu] at htail
      have hio : inOrderMatch (q :: ps') u = true := matchTail_imp_inOrder _ u htail
      have hs : s = [] ++ p ++ u := by simp [← hu]
      obtain ⟨r, hd, hur⟩ := occ_dropAfterFirst p [] u
      rw [← hs] at hd
      simp only [inOrderMatch, hd]
      exact inOrderMatch_suffix_mono _ u r hur hio

/-- C7 (corrected), counterexample to the claim as stated: the key
    "xhospitals:list:a" does not match the pattern "hospitals:list:*" over
    its full extent (the spec's anchored reading), yet matchPattern
    accepts it — the constructed regex is unanchored — and deletePattern
    deletes it from the fallback map. -/
theorem deletePattern_unanchored_ce :
    matchPatternAnchoredSpec "xhospitals:list:a" "hospitals:list:*" = false
    ∧ matchPattern "xhospitals:list:a" "hospitals:list:*" = true
    ∧ (deletePattern stX7 0 false false false "hospitals:list:*").mem = [] := by
  refine ⟨by decide, by decide, by decide⟩

/-- C7 (corrected), amended: deletePattern removes a fallback-map key iff
    the pattern's literal segments occur in the key, in order, anywhere
    inside it (unanchored substring semantics — a superset of full-key
    matches), while the primary-side enumeration uses the backend's
    anchored glob; the spec's concrete examples nevertheless behave as
    stated in both connection states. -/
theorem deletePattern_match_semantics_amended :
    (deletePattern stD7 0 false false false "hospitals:list:*").mem
      = [("hospital:a", e1000), ("search:x", e1000)]
    ∧ (deletePattern stC7 0 false false false "hospitals:list:*").redis
      = [("hospital:a", r1000), ("search:x", r1000)]
    ∧ (∀ (st : CacheState) (now : Nat) (pattern : String), st.connected = false →
      (deletePattern st now false false false pattern).mem
        = st.mem.filter (fun e => !(matchPattern e.1 pattern)))
    ∧ (∀ key pattern : String, matchPatternAnchoredSpec key pattern = true →
      matchPattern key pattern = true) := by
  refine ⟨by decide, by decide, ?_, ?_⟩
  · intro st now pattern hc
    simp [deletePattern, deletePatternRaw, memPhaseRaw, hc]
  · intro key pattern h
    exact matchAnchored_imp_inOrder _ _ h

/-- Witness for the amended C7 at concrete inputs. -/
theorem deletePattern_match_semantics_amended_witness :
    (deletePattern stM1 5 false false false "a*").mem
      = stM1.mem.filter (fun e => !(matchPattern e.1 "a*"))
    ∧ matchPattern "hospitals:list:a" "hospitals:list:*" = true :=
  ⟨deletePattern_match_semantics_amended.2.2.1 stM1 5 "a*" (by decide),
    deletePattern_match_semantics_amended.2.2.2 "hospitals:list:a"
      "hospitals:list:*" (by decide)⟩

end CacheService
